import Mathlib

/-!
Verification development for the `pscanner` repository
(`src/pscanner/__init__.py`), a concurrent TCP port scanner.

The development shallowly embeds the port-specification parser
(`parse_ports`), the CLI pipeline (`port_scanner`), the thread batching
loop (`start_threads` cohorts), and the `SocketHandler` error boundary.

`parse_ports` mutates a Python `set` and reads `list(port_list)[-1]`,
whose value depends on CPython's set iteration order (table-slot order).
To embed that faithfully, `PySet` models a CPython set of small
non-negative ints: an open-addressing table of size `2^k` (initially 8),
`hash(n) = n % (2^61 - 1)`, probing with a 9-slot linear window followed
by the `i = i*5 + 1 + perturb` recurrence (`perturb` starts at the hash
and is shifted right by 5 each round), and a resize to the next power of
two above `4*used` (or `2*used` past 50000 elements) once
`fill * 5 >= mask * 3`.  Iteration (`list(s)`) yields entries in table
order.  The probe loop is written with fuel; the fuel bound
`table size + 16` is unreachable in actual runs (an empty slot always
exists), and the fallback branches keep the set-membership specification
lemmas hypothesis-free.
-/

/-- CPython hash of a non-negative int: reduction modulo `2^61 - 1`. -/
def pyHash (n : Nat) : Nat := n % (2 ^ 61 - 1)

/-- Result of probing the table for a key: an occupied slot holding an
equal key, or the first empty slot on the probe path. -/
inductive SlotResult where
  | foundEq (j : Nat)
  | foundEmpty (j : Nat)
deriving DecidableEq, Repr

/-- Inspect one table slot while searching for key `n`: empty slot stops
the search, an equal key stops the search, anything else continues. -/
def checkSlot (t : List (Option Nat)) (n j : Nat) : Option SlotResult :=
  match t[j]? with
  | some none => some (SlotResult.foundEmpty j)
  | some (some m) => if m = n then some (SlotResult.foundEq j) else none
  | none => none

/-- The `LINEAR_PROBES` window of `set_add_entry`: check slots
`i, i+1, ..., i+k` in order. -/
def scanWindow (t : List (Option Nat)) (n : Nat) : Nat → Nat → Option SlotResult
  | i, 0 => checkSlot t n i
  | i, k + 1 =>
    match checkSlot t n i with
    | some r => some r
    | none => scanWindow t n (i + 1) k

/-- The probe loop of `set_add_entry`: a linear window at `i` (9 extra
slots when they fit under the mask), then rehash with
`perturb >>= 5; i = (i*5 + 1 + perturb) & mask`.  Fueled. -/
def probeSeq (t : List (Option Nat)) (n : Nat) : Nat → Nat → Nat → Option SlotResult
  | 0, _, _ => none
  | fuel + 1, i, perturb =>
    let mask := t.length - 1
    match scanWindow t n i (if i + 9 ≤ mask then 9 else 0) with
    | some r => some r
    | none =>
      let p2 := perturb >>> 5
      probeSeq t n fuel ((i * 5 + 1 + p2) &&& mask) p2

/-- Index of the first empty slot, scanning the table left to right
(fallback used only if the fueled probe loop gives up; unreachable in
actual runs). -/
def firstNoneAux : Nat → List (Option Nat) → Option Nat
  | _, [] => none
  | i, none :: _ => some i
  | i, some _ :: rest => firstNoneAux (i + 1) rest

def firstNone (t : List (Option Nat)) : Option Nat := firstNoneAux 0 t

/-- The probe window of `set_insert_clean`: only empty slots stop it. -/
def cleanWindow (t : List (Option Nat)) : Nat → Nat → Option Nat
  | i, 0 => if t[i]? = some none then some i else none
  | i, k + 1 => if t[i]? = some none then some i else cleanWindow t (i + 1) k

/-- The probe loop of `set_insert_clean` (re-insertion during resize). -/
def cleanSeq (t : List (Option Nat)) : Nat → Nat → Nat → Option Nat
  | 0, _, _ => none
  | fuel + 1, i, perturb =>
    let mask := t.length - 1
    match cleanWindow t i (if i + 9 ≤ mask then 9 else 0) with
    | some j => some j
    | none =>
      let p2 := perturb >>> 5
      cleanSeq t fuel ((i * 5 + 1 + p2) &&& mask) p2

/-- The `while (newsize <= minused) newsize <<= 1` loop of
`set_table_resize`, fueled (the fuel always suffices). -/
def growLoop : Nat → Nat → Nat → Nat
  | 0, cur, _ => cur
  | f + 1, cur, minused => if cur ≤ minused then growLoop f (cur * 2) minused else cur

/-- Python's `sorted(...)` on a list of ints, as insertion sort (chosen
for kernel reducibility; only the sorted output matters). -/
def sortList (l : List ℕ) : List ℕ := l.insertionSort (· ≤ ·)

/-- A CPython set of non-negative ints: the open-addressing table, in
slot order.  `none` is an unused slot. -/
structure PySet where
  table : List (Option Nat)
deriving DecidableEq, Repr

namespace PySet

/-- The elements in iteration order (= table-slot order); `list(s)`. -/
def elems (s : PySet) : List Nat := s.table.filterMap id

/-- The mathematical set of elements. -/
def toFinset (s : PySet) : Finset ℕ := s.elems.toFinset

/-- Number of occupied slots (no deletions ever occur, so
`fill = used`). -/
def fill (s : PySet) : Nat := s.elems.length

/-- `set()`: the 8-slot small table. -/
def empty : PySet := ⟨List.replicate 8 none⟩

/-- `set_insert_clean`: place `n` in the first empty slot on its probe
path (table known to have room). -/
def insertClean (s : PySet) (n : Nat) : PySet :=
  let h := pyHash n
  match cleanSeq s.table (s.table.length + 16) (h &&& (s.table.length - 1)) h with
  | some j => ⟨s.table.set j (some n)⟩
  | none =>
    match firstNone s.table with
    | some j => ⟨s.table.set j (some n)⟩
    | none => ⟨s.table ++ [some n]⟩

/-- `set_table_resize`: grow to the next power of two above `minused`
and re-insert all entries in old table order. -/
def resize (s : PySet) : PySet :=
  let minused := if s.fill > 50000 then s.fill * 2 else s.fill * 4
  let newsize := growLoop (minused + 8) 8 minused
  s.elems.foldl insertClean ⟨List.replicate newsize none⟩

/-- The resize check performed after `set_add_entry` inserts a new key:
resize once `fill * 5 >= mask * 3`. -/
def maybeResize (s : PySet) : PySet :=
  if s.fill * 5 ≥ (s.table.length - 1) * 3 then s.resize else s

/-- `s.add(n)`: probe for `n`; an equal key is a no-op, otherwise the
key is placed in the empty slot that ended the probe and the resize
check runs. -/
def add (s : PySet) (n : Nat) : PySet :=
  let h := pyHash n
  match probeSeq s.table n (s.table.length + 16) (h &&& (s.table.length - 1)) h with
  | some (SlotResult.foundEq _) => s
  | some (SlotResult.foundEmpty j) => maybeResize ⟨s.table.set j (some n)⟩
  | none =>
    match firstNone s.table with
    | some j => maybeResize ⟨s.table.set j (some n)⟩
    | none => maybeResize ⟨s.table ++ [some n]⟩

/-- `sorted(s)`: the elements in ascending order. -/
def sorted (s : PySet) : List ℕ := sortList s.elems

end PySet

/-! ### The port-string parser (`parse_ports`, lines 191-220)

The loop walks the characters of the raw string, accumulating every
character for which `char.isnumeric()` holds, adding completed numbers
on `,`, recording a pending range on `-` (after adding the left bound),
and silently skipping every other character.  `assert port.isnumeric()`
fails (an uncaught `AssertionError`) exactly when a separator arrives
with an empty buffer; `int(port)` fails (an uncaught `ValueError`) when
the buffer holds a numeric character that is not a decimal digit (such
as '\u00bd' or '\u00b2'), or when it exceeds CPython's 4300-character
string-to-int conversion limit.  Both failures are modelled as `none`.
A pending range is filled from `list(port_list)[-1] + 1` up to the new
number, inclusive.

`char.isnumeric()` holds exactly for the characters with a Unicode
Numeric_Type; `int()` accepts exactly those with Numeric_Type=Decimal,
which come in runs of ten consecutive code points carrying the digit
values 0-9.  The two tables below are generated from the Unicode 14.0.0
data used by CPython 3.11: the 66 run starts of the decimal digits, and
the 152 inclusive code-point ranges of the remaining numeric characters
(fractions, super- and subscripts, Roman and CJK numerals, ...). -/

/-- Start code points of the Unicode 14.0.0 Numeric_Type=Decimal runs:
each run is ten consecutive code points with decimal values 0-9. -/
def decimalRunStarts : List Nat :=
  [0x30, 0x660, 0x6F0, 0x7C0, 0x966, 0x9E6, 0xA66, 0xAE6,
   0xB66, 0xBE6, 0xC66, 0xCE6, 0xD66, 0xDE6, 0xE50, 0xED0,
   0xF20, 0x1040, 0x1090, 0x17E0, 0x1810, 0x1946, 0x19D0, 0x1A80,
   0x1A90, 0x1B50, 0x1BB0, 0x1C40, 0x1C50, 0xA620, 0xA8D0, 0xA900,
   0xA9D0, 0xA9F0, 0xAA50, 0xABF0, 0xFF10, 0x104A0, 0x10D30, 0x11066,
   0x110F0, 0x11136, 0x111D0, 0x112F0, 0x11450, 0x114D0, 0x11650, 0x116C0,
   0x11730, 0x118E0, 0x11950, 0x11C50, 0x11D50, 0x11DA0, 0x16A60, 0x16AC0,
   0x16B50, 0x1D7CE, 0x1D7D8, 0x1D7E2, 0x1D7EC, 0x1D7F6, 0x1E140, 0x1E2F0,
   0x1E950, 0x1FBF0]

/-- The decimal value of `c` when `c` is a decimal digit — the
characters `int()` accepts. -/
def pyDecimalVal (c : Char) : Option Nat :=
  decimalRunStarts.findSome? fun s =>
    if s ≤ c.toNat ∧ c.toNat < s + 10 then some (c.toNat - s) else none

/-- Inclusive code-point ranges of the Unicode 14.0.0 characters with
Numeric_Type=Digit or =Numeric but not =Decimal: `str.isnumeric`
accepts them but `int()` raises `ValueError` on them. -/
def otherNumericRanges : List (Nat × Nat) :=
  [(0xB2, 0xB3), (0xB9, 0xB9), (0xBC, 0xBE), (0x9F4, 0x9F9),
   (0xB72, 0xB77), (0xBF0, 0xBF2), (0xC78, 0xC7E), (0xD58, 0xD5E),
   (0xD70, 0xD78), (0xF2A, 0xF33), (0x1369, 0x137C), (0x16EE, 0x16F0),
   (0x17F0, 0x17F9), (0x19DA, 0x19DA), (0x2070, 0x2070), (0x2074, 0x2079),
   (0x2080, 0x2089), (0x2150, 0x2182), (0x2185, 0x2189), (0x2460, 0x249B),
   (0x24EA, 0x24FF), (0x2776, 0x2793), (0x2CFD, 0x2CFD), (0x3007, 0x3007),
   (0x3021, 0x3029), (0x3038, 0x303A), (0x3192, 0x3195), (0x3220, 0x3229),
   (0x3248, 0x324F), (0x3251, 0x325F), (0x3280, 0x3289), (0x32B1, 0x32BF),
   (0x3405, 0x3405), (0x3483, 0x3483), (0x382A, 0x382A), (0x3B4D, 0x3B4D),
   (0x4E00, 0x4E00), (0x4E03, 0x4E03), (0x4E07, 0x4E07), (0x4E09, 0x4E09),
   (0x4E5D, 0x4E5D), (0x4E8C, 0x4E8C), (0x4E94, 0x4E94), (0x4E96, 0x4E96),
   (0x4EBF, 0x4EC0), (0x4EDF, 0x4EDF), (0x4EE8, 0x4EE8), (0x4F0D, 0x4F0D),
   (0x4F70, 0x4F70), (0x5104, 0x5104), (0x5146, 0x5146), (0x5169, 0x5169),
   (0x516B, 0x516B), (0x516D, 0x516D), (0x5341, 0x5341), (0x5343, 0x5345),
   (0x534C, 0x534C), (0x53C1, 0x53C4), (0x56DB, 0x56DB), (0x58F1, 0x58F1),
   (0x58F9, 0x58F9), (0x5E7A, 0x5E7A), (0x5EFE, 0x5EFF), (0x5F0C, 0x5F0E),
   (0x5F10, 0x5F10), (0x62FE, 0x62FE), (0x634C, 0x634C), (0x67D2, 0x67D2),
   (0x6F06, 0x6F06), (0x7396, 0x7396), (0x767E, 0x767E), (0x8086, 0x8086),
   (0x842C, 0x842C), (0x8CAE, 0x8CAE), (0x8CB3, 0x8CB3), (0x8D30, 0x8D30),
   (0x9621, 0x9621), (0x9646, 0x9646), (0x964C, 0x964C), (0x9678, 0x9678),
   (0x96F6, 0x96F6), (0xA6E6, 0xA6EF), (0xA830, 0xA835), (0xF96B, 0xF96B),
   (0xF973, 0xF973), (0xF978, 0xF978), (0xF9B2, 0xF9B2), (0xF9D1, 0xF9D1),
   (0xF9D3, 0xF9D3), (0xF9FD, 0xF9FD), (0x10107, 0x10133), (0x10140, 0x10178),
   (0x1018A, 0x1018B), (0x102E1, 0x102FB), (0x10320, 0x10323), (0x10341, 0x10341),
   (0x1034A, 0x1034A), (0x103D1, 0x103D5), (0x10858, 0x1085F), (0x10879, 0x1087F),
   (0x108A7, 0x108AF), (0x108FB, 0x108FF), (0x10916, 0x1091B), (0x109BC, 0x109BD),
   (0x109C0, 0x109CF), (0x109D2, 0x109FF), (0x10A40, 0x10A48), (0x10A7D, 0x10A7E),
   (0x10A9D, 0x10A9F), (0x10AEB, 0x10AEF), (0x10B58, 0x10B5F), (0x10B78, 0x10B7F),
   (0x10BA9, 0x10BAF), (0x10CFA, 0x10CFF), (0x10E60, 0x10E7E), (0x10F1D, 0x10F26),
   (0x10F51, 0x10F54), (0x10FC5, 0x10FCB), (0x11052, 0x11065), (0x111E1, 0x111F4),
   (0x1173A, 0x1173B), (0x118EA, 0x118F2), (0x11C5A, 0x11C6C), (0x11FC0, 0x11FD4),
   (0x12400, 0x1246E), (0x16B5B, 0x16B61), (0x16E80, 0x16E96), (0x1D2E0, 0x1D2F3),
   (0x1D360, 0x1D378), (0x1E8C7, 0x1E8CF), (0x1EC71, 0x1ECAB), (0x1ECAD, 0x1ECAF),
   (0x1ECB1, 0x1ECB4), (0x1ED01, 0x1ED2D), (0x1ED2F, 0x1ED3D), (0x1F100, 0x1F10C),
   (0x20001, 0x20001), (0x20064, 0x20064), (0x200E2, 0x200E2), (0x20121, 0x20121),
   (0x2092A, 0x2092A), (0x20983, 0x20983), (0x2098C, 0x2098C), (0x2099C, 0x2099C),
   (0x20AEA, 0x20AEA), (0x20AFD, 0x20AFD), (0x20B19, 0x20B19), (0x22390, 0x22390),
   (0x22998, 0x22998), (0x23B1B, 0x23B1B), (0x2626D, 0x2626D), (0x2F890, 0x2F890)]

/-- Whether `c` is numeric but not a decimal digit. -/
def pyOtherNumeric (c : Char) : Bool :=
  otherNumericRanges.any fun r => decide (r.1 ≤ c.toNat ∧ c.toNat ≤ r.2)

/-- `char.isnumeric()`. -/
def pyIsNumericChar (c : Char) : Bool :=
  (pyDecimalVal c).isSome || pyOtherNumeric c

/-- `port.isnumeric()` for the accumulated buffer. -/
def pyIsNumeric (l : List Char) : Bool := !l.isEmpty && l.all pyIsNumericChar

/-- `int(port)`: `none` models the `ValueError` raised when some
character of the buffer is numeric but not a decimal digit, or when the
buffer is longer than CPython's 4300-digit string-to-int limit. -/
def pyInt (l : List Char) : Option Nat :=
  if l.length > 4300 then none
  else l.foldlM (fun a c => (pyDecimalVal c).map fun v => a * 10 + v) 0

/-- State of the `for char in ports` loop: the set built so far, the
numeric buffer, and the pending-range flag. -/
structure ParseState where
  portList : PySet
  port : List Char
  nextRanged : Bool
deriving Repr

/-- `for num in range(start, stop): port_list.add(num)`. -/
def addRange (s : PySet) (start stop : Nat) : PySet :=
  (List.range' start (stop - start)).foldl PySet.add s

/-- One iteration of the character loop of `parse_ports`. -/
def parseStep (st : ParseState) (c : Char) : Option ParseState :=
  if pyIsNumericChar c then some { st with port := st.port ++ [c] }
  else if c = ',' then
    if pyIsNumeric st.port then
      if st.nextRanged then
        match st.portList.elems.getLast?, pyInt st.port with
        | some last, some v =>
          some ⟨addRange st.portList (last + 1) (v + 1), [], false⟩
        | _, _ => none
      else
        match pyInt st.port with
        | some v => some ⟨st.portList.add v, [], st.nextRanged⟩
        | none => none
    else none
  else if c = '-' then
    if pyIsNumeric st.port then
      match pyInt st.port with
      | some v => some ⟨st.portList.add v, [], true⟩
      | none => none
    else none
  else some st

/-- The code after the loop: flush a nonempty buffer, honouring a
pending range. -/
def parseFinish (st : ParseState) : Option PySet :=
  if st.port.isEmpty then some st.portList
  else if pyIsNumeric st.port then
    if st.nextRanged then
      match st.portList.elems.getLast?, pyInt st.port with
      | some last, some v => some (addRange st.portList (last + 1) (v + 1))
      | _, _ => none
    else
      match pyInt st.port with
      | some v => some (st.portList.add v)
      | none => none
  else none

/-- `parse_ports`: `none` models an uncaught exception escaping the
function (the `assert` failures, `int()`'s `ValueError`, the dead
`IndexError` of an empty `list(port_list)`). -/
def parse_ports (ports : String) : Option PySet :=
  (ports.data.foldlM parseStep ⟨PySet.empty, [], false⟩) >>= parseFinish

/-! ### The CLI pipeline (`port_scanner`, lines 115-170)

The embedding keeps the source's control flow: the `max_threads < 0`
check, then `socket.gethostbyname` (modelled by the oracle `resolveOk`:
an unresolvable hostname raises `socket.gaierror` *outside* the
`SocketHandler` boundary), then the two `parse_ports` calls, then the
range check over `sorted(included)[0] / [-1]` and
`sorted(excluded)[0] / [-1]` with Python's short-circuit `or` (indexing
an empty sorted list raises an uncaught `IndexError`), and finally the
thread-batching loop inside `with SocketHandler(...)`.

An `Outcome` records how the process ends:
* `uncaught e` — exception `e` escapes `port_scanner`; the interpreter
  prints a traceback and exits with status 1;
* `earlyExit msg` — `click.echo(msg)` followed by a bare `sys.exit()`,
  which raises `SystemExit(None)`: the process exits with status **0**;
* `handled msg batches summary` — the scan ran to completion: `batches`
  are the successive `start_threads` cohorts (each cohort is started in
  full, then joined in full, before the next begins, so the ports of one
  inner list are exactly the probes that can be simultaneously in
  flight), `summary` is the count printed in the final
  `Finished checking N port(s)` line, and `msg` is what
  `SocketHandler.__exit__` prints for the terminal `SystemExit` before
  its own bare `sys.exit()` ends the process with status 0. -/

def DEFAULT_PORTS : List ℕ :=
  [21, 22, 23, 25, 53, 80, 110, 111, 135, 139, 143, 443, 445, 993, 995,
   1433, 1434, 1723, 3306, 3389, 5900, 8080, 8443]

inductive PyExc where
  | gaierror
  | socketError
  | assertionError
  | indexError
  | systemExit
  | keyboardInterrupt
  | otherExc
deriving DecidableEq, Repr

inductive Outcome where
  | uncaught (e : PyExc)
  | earlyExit (msg : String)
  | handled (msg : String) (batches : List (List ℕ)) (summary : ℕ)
deriving DecidableEq, Repr

def threadMsg : String := "Maximum thread number should be a positive integer or 0"

def rangeMsg : String := "Specified ports should be between 0 and 65536."

/-- `SocketHandler.__exit__` (lines 74-88): the message printed for the
exception that reaches the boundary.  Every branch then calls a bare
`sys.exit()`, so a handled exception still ends the process with
status 0. -/
def socketHandlerMessage : PyExc → String
  | PyExc.keyboardInterrupt => "Exiting program."
  | PyExc.systemExit => "Exiting program."
  | PyExc.gaierror => "[!] Hostname could not be resolved."
  | PyExc.socketError => "[!] Could not connect to server."
  | _ => "[!] Unknown error."

/-- Process exit status for each outcome: an uncaught exception makes
the interpreter exit 1; both `sys.exit()` paths exit 0. -/
def exitCode : Outcome → Nat
  | Outcome.uncaught _ => 1
  | Outcome.earlyExit _ => 0
  | Outcome.handled _ _ _ => 0

inductive ValidationResult where
  | ok
  | rangeExit
  | indexError
deriving DecidableEq, Repr

/-- Line 147: `if sorted_included[0] <= 0 or 65535 < sorted_included[-1]
or sorted_excluded[0] <= 0 or 65535 < sorted_excluded[-1]`, with
Python's left-to-right short circuit: indexing an empty list raises
`IndexError`, and the excluded list is only touched after the included
checks pass. -/
def validatePorts (sorted_included sorted_excluded : List ℕ) : ValidationResult :=
  match sorted_included.head?, sorted_included.getLast? with
  | some i0, some iN =>
    if i0 ≤ 0 then ValidationResult.rangeExit
    else if 65535 < iN then ValidationResult.rangeExit
    else
      match sorted_excluded.head?, sorted_excluded.getLast? with
      | some e0, some eN =>
        if e0 ≤ 0 then ValidationResult.rangeExit
        else if 65535 < eN then ValidationResult.rangeExit
        else ValidationResult.ok
      | _, _ => ValidationResult.indexError
  | _, _ => ValidationResult.indexError

/-- Line 157: `sorted(list(set(DEFAULT_PORTS).union(included_ports)) if
default else list(included_ports))` — the ascending list of the distinct
elements of the positive set.  `included` is the element list of the
include set. -/
def totalPorts (defaultFlag : Bool) (included : List ℕ) : List ℕ :=
  sortList (if defaultFlag then (DEFAULT_PORTS ++ included).dedup else included.dedup)

/-- Line 158: `[p for p in total_ports if p not in excluded_ports]`. -/
def usedPorts (defaultFlag : Bool) (included excluded : List ℕ) : List ℕ :=
  (totalPorts defaultFlag included).filter (fun p => decide (p ∉ excluded))

/-- Lines 159-168: the thread-accumulation loop. `threads` is flushed
into a `start_threads` cohort whenever a new port arrives while
`len(threads) == max_threads` (and batching is enabled, i.e.
`max_threads != 0 and len(total_ports) > max_threads`); the leftovers
form the final cohort. -/
def batchLoop (totalLen b : Nat) : List ℕ → List ℕ → List (List ℕ) → List (List ℕ)
  | [], threads, acc => acc ++ [threads]
  | p :: ps, threads, acc =>
    if b ≠ 0 ∧ totalLen > b ∧ threads.length = b then
      batchLoop totalLen b ps [p] (acc ++ [threads])
    else
      batchLoop totalLen b ps (threads ++ [p]) acc

/-- The successive `start_threads` cohorts of a scan. -/
def scanBatches (used : List ℕ) (totalLen b : Nat) : List (List ℕ) :=
  batchLoop totalLen b used [] []

/-- The whole `port_scanner` command.  `resolveOk` is the
`socket.gethostbyname` oracle (`false` = the hostname does not
resolve, raising `socket.gaierror` at line 138, before the
`SocketHandler` boundary is entered). -/
def port_scanner (max_threads : Int) (defaultFlag : Bool)
    (include_s exclude_s : Option String) (resolveOk : Bool) : Outcome :=
  if max_threads < 0 then Outcome.earlyExit threadMsg
  else if resolveOk = false then Outcome.uncaught PyExc.gaierror
  else
    match parse_ports (include_s.getD "") with
    | none => Outcome.uncaught PyExc.assertionError
    | some included_ports =>
      match parse_ports (exclude_s.getD "") with
      | none => Outcome.uncaught PyExc.assertionError
      | some excluded_ports =>
        match validatePorts included_ports.sorted excluded_ports.sorted with
        | ValidationResult.rangeExit => Outcome.earlyExit rangeMsg
        | ValidationResult.indexError => Outcome.uncaught PyExc.indexError
        | ValidationResult.ok =>
          let total_ports := totalPorts defaultFlag included_ports.elems
          let used_ports :=
            usedPorts defaultFlag included_ports.elems excluded_ports.elems
          Outcome.handled (socketHandlerMessage PyExc.systemExit)
            (scanBatches used_ports total_ports.length max_threads.toNat)
            total_ports.length

/-! ### Spec-side descriptions used in theorem statements -/

/-- Plain chunking of a list into pieces of size `b` (last piece may be
shorter); fueled, the fuel always suffices for `b > 0`. -/
def chunksOfAux (b : Nat) : Nat → List ℕ → List (List ℕ)
  | 0, l => [l]
  | f + 1, l => if l.length ≤ b then [l] else l.take b :: chunksOfAux b f (l.drop b)

def chunksOf (b : Nat) (l : List ℕ) : List (List ℕ) := chunksOfAux b l.length l

/-- Intermediate description of the batching loop once flushing is
enabled: flush exactly when the cohort has reached size `b` and a new
port arrives. -/
def seqChunks (b : Nat) : List ℕ → List ℕ → List (List ℕ)
  | threads, [] => [threads]
  | threads, p :: ps =>
    if threads.length = b then threads :: seqChunks b [p] ps
    else seqChunks b (threads ++ [p]) ps

/-- One failure condition of `parse_ports`, read off the raw
characters: a `,` or `-` encountered while the numeric buffer is empty
(the boolean argument tracks buffer non-emptiness). -/
def hasSeparatorOnEmpty : Bool → List Char → Bool
  | _, [] => false
  | h, c :: cs =>
    if pyIsNumericChar c then hasSeparatorOnEmpty true cs
    else if c = ',' ∨ c = '-' then !h || hasSeparatorOnEmpty false cs
    else hasSeparatorOnEmpty h cs

/-- The complete failure condition of `parse_ports`, read off the raw
characters.  The state is an abstraction of the buffer: its length and
whether it is poisoned (holds a numeric non-decimal character).  A
separator raises if the buffer is empty (the assert) or if the flushed
`int()` fails (poisoned or over the 4300-digit limit); the end of the
string flushes a nonempty buffer the same way. -/
def parseRaises : Nat → Bool → List Char → Bool
  | bufLen, poisoned, [] =>
    !decide (bufLen = 0) && (poisoned || decide (bufLen > 4300))
  | bufLen, poisoned, c :: cs =>
    if (pyDecimalVal c).isSome then parseRaises (bufLen + 1) poisoned cs
    else if pyOtherNumeric c then parseRaises (bufLen + 1) true cs
    else if c = ',' ∨ c = '-' then
      (decide (bufLen = 0) || poisoned || decide (bufLen > 4300))
        || parseRaises 0 false cs
    else parseRaises bufLen poisoned cs
/-! ### Set-membership specification of the `PySet` operations

Following the usual style for verified hash tables, each table
operation gets a specification lemma phrased through `toFinset`. -/

theorem checkSlot_foundEq {t : List (Option Nat)} {n j j' : Nat}
    (h : checkSlot t n j = some (SlotResult.foundEq j')) : t[j']? = some (some n) := by
  rcases hj : t[j]? with _ | (_ | m)
  · simp [checkSlot, hj] at h
  · simp [checkSlot, hj] at h
  · simp only [checkSlot, hj] at h
    split at h
    · rename_i hm
      obtain rfl : j = j' := by simpa using h
      rw [hj, hm]
    · simp at h

theorem checkSlot_foundEmpty {t : List (Option Nat)} {n j j' : Nat}
    (h : checkSlot t n j = some (SlotResult.foundEmpty j')) : t[j']? = some none := by
  rcases hj : t[j]? with _ | (_ | m)
  · simp [checkSlot, hj] at h
  · simp only [checkSlot, hj] at h
    obtain rfl : j = j' := by simpa using h
    exact hj
  · simp only [checkSlot, hj] at h
    split at h <;> simp at h

theorem scanWindow_foundEq {t : List (Option Nat)} {n : Nat} :
    ∀ {k i j : Nat}, scanWindow t n i k = some (SlotResult.foundEq j) →
      t[j]? = some (some n) := by
  intro k
  induction k with
  | zero => intro i j h; exact checkSlot_foundEq h
  | succ k ih =>
    intro i j h
    unfold scanWindow at h
    rcases hc : checkSlot t n i with _ | r <;> rw [hc] at h
    · exact ih h
    · cases h; exact checkSlot_foundEq hc

theorem scanWindow_foundEmpty {t : List (Option Nat)} {n : Nat} :
    ∀ {k i j : Nat}, scanWindow t n i k = some (SlotResult.foundEmpty j) →
      t[j]? = some none := by
  intro k
  induction k with
  | zero => intro i j h; exact checkSlot_foundEmpty h
  | succ k ih =>
    intro i j h
    unfold scanWindow at h
    rcases hc : checkSlot t n i with _ | r <;> rw [hc] at h
    · exact ih h
    · cases h; exact checkSlot_foundEmpty hc

theorem probeSeq_foundEq {t : List (Option Nat)} {n : Nat} :
    ∀ {fuel i p j : Nat}, probeSeq t n fuel i p = some (SlotResult.foundEq j) →
      t[j]? = some (some n) := by
  intro fuel
  induction fuel with
  | zero => intro i p j h; exact absurd h (by simp [probeSeq])
  | succ fuel ih =>
    intro i p j h
    unfold probeSeq at h
    rcases hw : scanWindow t n i (if i + 9 ≤ t.length - 1 then 9 else 0) with _ | r <;>
      simp only [hw] at h
    · exact ih h
    · cases h; exact scanWindow_foundEq hw

theorem probeSeq_foundEmpty {t : List (Option Nat)} {n : Nat} :
    ∀ {fuel i p j : Nat}, probeSeq t n fuel i p = some (SlotResult.foundEmpty j) →
      t[j]? = some none := by
  intro fuel
  induction fuel with
  | zero => intro i p j h; exact absurd h (by simp [probeSeq])
  | succ fuel ih =>
    intro i p j h
    unfold probeSeq at h
    rcases hw : scanWindow t n i (if i + 9 ≤ t.length - 1 then 9 else 0) with _ | r <;>
      simp only [hw] at h
    · exact ih h
    · cases h; exact scanWindow_foundEmpty hw

theorem firstNoneAux_spec :
    ∀ {t : List (Option Nat)} {i j : Nat}, firstNoneAux i t = some j →
      ∃ k, j = i + k ∧ t[k]? = some none := by
  intro t
  induction t with
  | nil => intro i j h; exact absurd h (by simp [firstNoneAux])
  | cons a t ih =>
    intro i j h
    cases a with
    | none =>
      have : i = j := by simpa [firstNoneAux] using h
      exact ⟨0, by omega, by simp⟩
    | some m =>
      obtain ⟨k, hk, hget⟩ := ih (by simpa [firstNoneAux] using h)
      exact ⟨k + 1, by omega, by simpa using hget⟩

theorem firstNone_spec {t : List (Option Nat)} {j : Nat}
    (h : firstNone t = some j) : t[j]? = some none := by
  obtain ⟨k, hk, hget⟩ := firstNoneAux_spec h
  simpa [hk] using hget

theorem cleanWindow_spec {t : List (Option Nat)} :
    ∀ {k i j : Nat}, cleanWindow t i k = some j → t[j]? = some none := by
  intro k
  induction k with
  | zero =>
    intro i j h
    unfold cleanWindow at h
    split at h
    · rename_i hi; cases h; exact hi
    · exact absurd h (by simp)
  | succ k ih =>
    intro i j h
    unfold cleanWindow at h
    split at h
    · rename_i hi; cases h; exact hi
    · exact ih h

theorem cleanSeq_spec {t : List (Option Nat)} :
    ∀ {fuel i p j : Nat}, cleanSeq t fuel i p = some j → t[j]? = some none := by
  intro fuel
  induction fuel with
  | zero => intro i p j h; exact absurd h (by simp [cleanSeq])
  | succ fuel ih =>
    intro i p j h
    unfold cleanSeq at h
    rcases hw : cleanWindow t i (if i + 9 ≤ t.length - 1 then 9 else 0) with _ | r <;>
      simp only [hw] at h
    · exact ih h
    · cases h; exact cleanWindow_spec hw

theorem mem_filterMap_set_none :
    ∀ {t : List (Option Nat)} {j : Nat}, t[j]? = some none → ∀ {n m : Nat},
      (m ∈ (t.set j (some n)).filterMap id ↔ m = n ∨ m ∈ t.filterMap id) := by
  intro t
  induction t with
  | nil => intro j hj; simp at hj
  | cons a t ih =>
    intro j hj n m
    cases j with
    | zero =>
      obtain rfl : a = none := by simpa using hj
      simp [List.set]
    | succ j =>
      have hj' : t[j]? = some none := by simpa using hj
      cases a with
      | none => simpa using ih hj'
      | some b =>
        simp [List.set, ih hj']
        tauto

theorem PySet.toFinset_mk_set {t : List (Option Nat)} {j n : Nat}
    (hj : t[j]? = some none) :
    PySet.toFinset ⟨t.set j (some n)⟩ = insert n (PySet.toFinset ⟨t⟩) := by
  ext m
  simp [PySet.toFinset, PySet.elems, mem_filterMap_set_none hj]

theorem PySet.toFinset_mk_append {t : List (Option Nat)} {n : Nat} :
    PySet.toFinset ⟨t ++ [some n]⟩ = insert n (PySet.toFinset ⟨t⟩) := by
  ext m
  simp [PySet.toFinset, PySet.elems, List.filterMap_append, or_comm]

theorem PySet.toFinset_insertClean (s : PySet) (n : Nat) :
    (s.insertClean n).toFinset = insert n s.toFinset := by
  unfold PySet.insertClean
  rcases hc : cleanSeq s.table (s.table.length + 16)
      (pyHash n &&& (s.table.length - 1)) (pyHash n) with _ | j
  · rcases hf : firstNone s.table with _ | j
    · simp only [hc, hf]
      exact PySet.toFinset_mk_append
    · simp only [hc, hf]
      exact PySet.toFinset_mk_set (firstNone_spec hf)
  · simp only [hc]
    exact PySet.toFinset_mk_set (cleanSeq_spec hc)

theorem PySet.toFinset_foldl_of_insert {f : PySet → Nat → PySet}
    (hf : ∀ t x, (f t x).toFinset = insert x t.toFinset) :
    ∀ (l : List Nat) (t0 : PySet),
      (l.foldl f t0).toFinset = t0.toFinset ∪ l.toFinset := by
  intro l
  induction l with
  | nil => intro t0; simp
  | cons x xs ih =>
    intro t0
    simp only [List.foldl_cons, ih, hf, List.toFinset_cons]
    ext m
    simp

theorem filterMap_id_replicate_none {k : Nat} :
    (List.replicate k (none : Option Nat)).filterMap id = [] := by
  induction k with
  | zero => rfl
  | succ k ih => simp [List.replicate_succ, ih]

theorem PySet.toFinset_replicate_none {k : Nat} :
    PySet.toFinset ⟨List.replicate k none⟩ = ∅ := by
  simp [PySet.toFinset, PySet.elems, filterMap_id_replicate_none]

theorem PySet.toFinset_resize (s : PySet) : s.resize.toFinset = s.toFinset := by
  unfold PySet.resize
  rw [PySet.toFinset_foldl_of_insert PySet.toFinset_insertClean,
    PySet.toFinset_replicate_none]
  simp [PySet.toFinset]

theorem PySet.toFinset_maybeResize (s : PySet) :
    s.maybeResize.toFinset = s.toFinset := by
  unfold PySet.maybeResize
  split
  · exact PySet.toFinset_resize s
  · rfl

theorem PySet.toFinset_add (s : PySet) (n : Nat) :
    (s.add n).toFinset = insert n s.toFinset := by
  unfold PySet.add
  rcases hp : probeSeq s.table n (s.table.length + 16)
      (pyHash n &&& (s.table.length - 1)) (pyHash n) with _ | r
  · rcases hf : firstNone s.table with _ | j
    · simp only [hp, hf, PySet.toFinset_maybeResize]
      exact PySet.toFinset_mk_append
    · simp only [hp, hf, PySet.toFinset_maybeResize]
      exact PySet.toFinset_mk_set (firstNone_spec hf)
  · cases r with
    | foundEq j =>
      simp only [hp]
      have hj : s.table[j]? = some (some n) := probeSeq_foundEq hp
      have hmem : n ∈ s.toFinset := by
        simp only [PySet.toFinset, PySet.elems, List.mem_toFinset, List.mem_filterMap]
        exact ⟨some n, List.getElem?_mem hj, rfl⟩
      exact (Finset.insert_eq_self.mpr hmem).symm
    | foundEmpty j =>
      simp only [hp, PySet.toFinset_maybeResize]
      exact PySet.toFinset_mk_set (probeSeq_foundEmpty hp)

theorem PySet.mem_toFinset_add_self (s : PySet) (n : Nat) :
    n ∈ (s.add n).toFinset := by
  rw [PySet.toFinset_add]; exact Finset.mem_insert_self n _

theorem PySet.elems_eq_nil_iff (s : PySet) : s.elems = [] ↔ s.toFinset = ∅ := by
  constructor
  · intro h; simp [PySet.toFinset, h]
  · intro h
    exact List.toFinset_eq_empty_iff s.elems |>.mp h

theorem PySet.toFinset_addRange (s : PySet) (a b : Nat) :
    (addRange s a b).toFinset = s.toFinset ∪ (List.range' a (b - a)).toFinset := by
  unfold addRange
  exact PySet.toFinset_foldl_of_insert PySet.toFinset_add _ s

/-! ### Characterizing when `parse_ports` fails

The buffer only ever holds `isnumeric` characters, and whenever a range
is pending the set is nonempty (the left bound was just added), so the
parser can raise only through the `assert port.isnumeric()` on a
separator with an empty buffer, or through `int(port)` on a flushed
buffer that is poisoned (holds a numeric non-decimal character) or over
the 4300-digit limit. -/

/-- Loop invariant of `parse_ports`: the buffer is all numeric, and a
pending range implies a nonempty set. -/
def ParseInv (st : ParseState) : Prop :=
  st.port.all pyIsNumericChar = true
    ∧ (st.nextRanged = true → st.portList.elems ≠ [])

theorem pyIsNumeric_of_all {l : List Char} (h : l.all pyIsNumericChar = true) :
    pyIsNumeric l = !l.isEmpty := by
  simp [pyIsNumeric, h]

theorem add_elems_ne_nil (s : PySet) (n : Nat) : (s.add n).elems ≠ [] := by
  intro h
  have := (PySet.elems_eq_nil_iff _).mp h
  rw [PySet.toFinset_add] at this
  simpa using congrArg (n ∈ ·) this

theorem comma_not_numeric : pyIsNumericChar ',' = false := by decide

theorem dash_not_numeric : pyIsNumericChar '-' = false := by decide

theorem foldDigits_isNone :
    ∀ (l : List Char) (a : Nat),
      (List.foldlM (fun a c => (pyDecimalVal c).map fun v => a * 10 + v) a l).isNone
        = l.any fun c => !(pyDecimalVal c).isSome := by
  intro l
  induction l with
  | nil => intro a; rfl
  | cons c cs ih =>
    intro a
    rw [List.foldlM_cons]
    rcases hv : pyDecimalVal c with _ | v
    · simp [hv]
    · simp only [hv, Option.map_some', Option.bind_eq_bind, Option.some_bind,
        List.any_cons, Option.isSome_some, Bool.not_true, Bool.false_or]
      exact ih _

theorem pyInt_isNone (l : List Char) :
    (pyInt l).isNone
      = ((l.any fun c => !(pyDecimalVal c).isSome) || decide (l.length > 4300)) := by
  unfold pyInt
  split
  · rename_i h
    simp [h]
  · rename_i h
    rw [foldDigits_isNone]
    simp [h]

theorem isEmpty_eq_decide_length (l : List Char) :
    l.isEmpty = decide (l.length = 0) := by
  cases l <;> simp

theorem parseStep_numeric {st : ParseState} {c : Char}
    (h : pyIsNumericChar c = true) :
    parseStep st c = some { st with port := st.port ++ [c] } := by
  unfold parseStep
  rw [if_pos h]

theorem parseStep_comma_fail {st : ParseState} (h : pyIsNumeric st.port = false) :
    parseStep st ',' = none := by
  unfold parseStep
  rw [if_neg (by simp [comma_not_numeric]), if_pos rfl, h]
  simp

theorem parseStep_comma_ranged {st : ParseState} {last v : Nat}
    (h : pyIsNumeric st.port = true) (hr : st.nextRanged = true)
    (hl : st.portList.elems.getLast? = some last) (hv : pyInt st.port = some v) :
    parseStep st ',' =
      some ⟨addRange st.portList (last + 1) (v + 1), [], false⟩ := by
  unfold parseStep
  rw [if_neg (by simp [comma_not_numeric]), if_pos rfl, h, if_pos rfl, hr,
    if_pos rfl, hl, hv]

theorem parseStep_comma_ranged_bad {st : ParseState} {last : Nat}
    (h : pyIsNumeric st.port = true) (hr : st.nextRanged = true)
    (hl : st.portList.elems.getLast? = some last) (hv : pyInt st.port = none) :
    parseStep st ',' = none := by
  unfold parseStep
  rw [if_neg (by simp [comma_not_numeric]), if_pos rfl, h, if_pos rfl, hr,
    if_pos rfl, hl, hv]

theorem parseStep_comma_single {st : ParseState} {v : Nat}
    (h : pyIsNumeric st.port = true) (hr : st.nextRanged = false)
    (hv : pyInt st.port = some v) :
    parseStep st ',' = some ⟨st.portList.add v, [], false⟩ := by
  unfold parseStep
  rw [if_neg (by simp [comma_not_numeric]), if_pos rfl, h, if_pos rfl, hr, hv]
  simp

theorem parseStep_comma_single_bad {st : ParseState}
    (h : pyIsNumeric st.port = true) (hr : st.nextRanged = false)
    (hv : pyInt st.port = none) :
    parseStep st ',' = none := by
  unfold parseStep
  rw [if_neg (by simp [comma_not_numeric]), if_pos rfl, h, if_pos rfl, hr, hv]
  simp

theorem parseStep_dash_fail {st : ParseState} (h : pyIsNumeric st.port = false) :
    parseStep st '-' = none := by
  unfold parseStep
  rw [if_neg (by simp [dash_not_numeric]), if_neg (by decide), if_pos rfl, h]
  simp

theorem parseStep_dash_ok {st : ParseState} {v : Nat}
    (h : pyIsNumeric st.port = true) (hv : pyInt st.port = some v) :
    parseStep st '-' = some ⟨st.portList.add v, [], true⟩ := by
  unfold parseStep
  rw [if_neg (by simp [dash_not_numeric]), if_neg (by decide), if_pos rfl, h,
    if_pos rfl, hv]

theorem parseStep_dash_bad {st : ParseState}
    (h : pyIsNumeric st.port = true) (hv : pyInt st.port = none) :
    parseStep st '-' = none := by
  unfold parseStep
  rw [if_neg (by simp [dash_not_numeric]), if_neg (by decide), if_pos rfl, h,
    if_pos rfl, hv]

theorem parseStep_other {st : ParseState} {c : Char}
    (hc : pyIsNumericChar c = false) (h1 : c ≠ ',') (h2 : c ≠ '-') :
    parseStep st c = some st := by
  unfold parseStep
  rw [if_neg (by simp [hc]), if_neg h1, if_neg h2]

theorem parseFinish_eq_none_iff {st : ParseState} (hinv : ParseInv st) :
    (parseFinish st = none) ↔
      (st.port.isEmpty = false ∧ (pyInt st.port).isNone = true) := by
  obtain ⟨hall, hrange⟩ := hinv
  unfold parseFinish
  by_cases hemp : st.port.isEmpty
  · rw [if_pos hemp]
    simp [hemp]
  · have hemp' : st.port.isEmpty = false := by
      revert hemp; cases st.port.isEmpty <;> simp
    have hok : pyIsNumeric st.port = true := by
      rw [pyIsNumeric_of_all hall, hemp']; rfl
    rw [if_neg hemp, if_pos hok]
    by_cases hr : st.nextRanged = true
    · obtain ⟨last, hl⟩ : ∃ last, st.portList.elems.getLast? = some last := by
        rcases hL : st.portList.elems.getLast? with _ | last
        · exact absurd (List.getLast?_eq_none_iff.mp hL) (hrange hr)
        · exact ⟨last, rfl⟩
      rw [if_pos hr, hl]
      rcases hv : pyInt st.port with _ | v
      · simp [hemp', hv]
      · simp [hemp', hv]
    · rw [if_neg hr]
      rcases hv : pyInt st.port with _ | v
      · simp [hemp', hv]
      · simp [hemp', hv]

theorem parseRaises_nil (bufLen : Nat) (poisoned : Bool) :
    parseRaises bufLen poisoned []
      = (!decide (bufLen = 0) && (poisoned || decide (bufLen > 4300))) := rfl

theorem parseRaises_cons (bufLen : Nat) (poisoned : Bool) (c : Char)
    (cs : List Char) :
    parseRaises bufLen poisoned (c :: cs) =
      if (pyDecimalVal c).isSome then parseRaises (bufLen + 1) poisoned cs
      else if pyOtherNumeric c then parseRaises (bufLen + 1) true cs
      else if c = ',' ∨ c = '-' then
        (decide (bufLen = 0) || poisoned || decide (bufLen > 4300))
          || parseRaises 0 false cs
      else parseRaises bufLen poisoned cs := rfl

theorem some_bind_bind {α β γ : Type} (a : α) (f : α → Option β)
    (g : β → Option γ) : ((some a >>= f) >>= g) = f a >>= g := rfl

theorem none_bind_bind {α β γ : Type} (f : α → Option β) (g : β → Option γ) :
    (((none : Option α) >>= f) >>= g) = none := rfl

theorem parse_loop_spec :
    ∀ (cs : List Char) (st : ParseState), ParseInv st →
      ((List.foldlM parseStep st cs >>= parseFinish) = none ↔
        parseRaises st.port.length
          (st.port.any fun c => !(pyDecimalVal c).isSome) cs = true) := by
  intro cs
  induction cs with
  | nil =>
    intro st hinv
    rw [List.foldlM_nil, parseRaises_nil]
    simp only [Option.bind_eq_bind, Option.pure_def, Option.some_bind]
    rw [parseFinish_eq_none_iff hinv, pyInt_isNone, isEmpty_eq_decide_length]
    simp [Bool.and_eq_true]
  | cons c cs ih =>
    intro st hinv
    obtain ⟨hall, hrange⟩ := hinv
    rw [List.foldlM_cons, parseRaises_cons]
    by_cases hval : (pyDecimalVal c).isSome = true
    · have hnc : pyIsNumericChar c = true := by simp [pyIsNumericChar, hval]
      have hinv1 : ParseInv { st with port := st.port ++ [c] } :=
        ⟨by simp [List.all_append, hall, hnc], hrange⟩
      rw [parseStep_numeric hnc, if_pos hval]
      simp only [some_bind_bind]
      rw [ih _ hinv1]
      have h1 : (st.port ++ [c]).length = st.port.length + 1 := by simp
      have h2 : ((st.port ++ [c]).any fun c => !(pyDecimalVal c).isSome)
          = (st.port.any fun c => !(pyDecimalVal c).isSome) := by
        rw [List.any_append]
        simp only [List.any_cons, List.any_nil, hval, Bool.not_true,
          Bool.or_false]
      rw [h1, h2]
    · by_cases hoth : pyOtherNumeric c = true
      · have hnc : pyIsNumericChar c = true := by simp [pyIsNumericChar, hoth]
        have hinv1 : ParseInv { st with port := st.port ++ [c] } :=
          ⟨by simp [List.all_append, hall, hnc], hrange⟩
        rw [parseStep_numeric hnc, if_neg hval, if_pos hoth]
        simp only [some_bind_bind]
        rw [ih _ hinv1]
        have h1 : (st.port ++ [c]).length = st.port.length + 1 := by simp
        have hvf : (pyDecimalVal c).isSome = false := by
          revert hval; cases (pyDecimalVal c).isSome <;> simp
        have h2 : ((st.port ++ [c]).any fun c => !(pyDecimalVal c).isSome)
            = true := by
          rw [List.any_append]
          simp only [List.any_cons, List.any_nil, hvf, Bool.not_false,
            Bool.or_false, Bool.or_true]
        rw [h1, h2]
      · have hnc : pyIsNumericChar c = false := by
          simp [pyIsNumericChar, hval, hoth]
        rw [if_neg hval, if_neg hoth]
        by_cases hsep : c = ',' ∨ c = '-'
        · rw [if_pos hsep]
          by_cases hemp : st.port.isEmpty
          · have hfail : pyIsNumeric st.port = false := by
              rw [pyIsNumeric_of_all hall, hemp]; rfl
            have hstep : parseStep st c = none := by
              rcases hsep with rfl | rfl
              · exact parseStep_comma_fail hfail
              · exact parseStep_dash_fail hfail
            have hlen0 : decide (st.port.length = 0) = true := by
              rw [← isEmpty_eq_decide_length]; exact hemp
            rw [hstep]
            simp only [none_bind_bind, true_iff]
            rw [hlen0]
            simp
          · have hemp' : st.port.isEmpty = false := by
              revert hemp; cases st.port.isEmpty <;> simp
            have hok : pyIsNumeric st.port = true := by
              rw [pyIsNumeric_of_all hall, hemp']; rfl
            have hlen0 : decide (st.port.length = 0) = false := by
              rw [← isEmpty_eq_decide_length]; exact hemp'
            rcases hv : pyInt st.port with _ | v
            · have hstep : parseStep st c = none := by
                rcases hsep with rfl | rfl
                · by_cases hr : st.nextRanged = true
                  · obtain ⟨last, hl⟩ :
                        ∃ last, st.portList.elems.getLast? = some last := by
                      rcases hL : st.portList.elems.getLast? with _ | last
                      · exact absurd (List.getLast?_eq_none_iff.mp hL) (hrange hr)
                      · exact ⟨last, rfl⟩
                    exact parseStep_comma_ranged_bad hok hr hl hv
                  · exact parseStep_comma_single_bad hok
                      (by revert hr; cases st.nextRanged <;> simp) hv
                · exact parseStep_dash_bad hok hv
              have hbad : ((st.port.any fun c => !(pyDecimalVal c).isSome)
                  || decide (st.port.length > 4300)) = true := by
                rw [← pyInt_isNone, hv]; rfl
              have hbig : ((decide (st.port.length = 0)
                  || st.port.any fun c => !(pyDecimalVal c).isSome)
                  || decide (st.port.length > 4300)) = true := by
                rcases Bool.or_eq_true_iff.mp hbad with hb | hb
                · rw [hb, Bool.or_true, Bool.true_or]
                · rw [hb, Bool.or_true]
              rw [hstep]
              simp only [none_bind_bind, true_iff]
              rw [hbig, Bool.true_or]
            · obtain ⟨st1, hstep, hport1, hinv1⟩ :
                  ∃ st1, parseStep st c = some st1 ∧ st1.port = []
                    ∧ ParseInv st1 := by
                rcases hsep with rfl | rfl
                · by_cases hr : st.nextRanged = true
                  · obtain ⟨last, hl⟩ :
                        ∃ last, st.portList.elems.getLast? = some last := by
                      rcases hL : st.portList.elems.getLast? with _ | last
                      · exact absurd (List.getLast?_eq_none_iff.mp hL) (hrange hr)
                      · exact ⟨last, rfl⟩
                    exact ⟨_, parseStep_comma_ranged hok hr hl hv, rfl,
                      by simp, by simp⟩
                  · exact ⟨_, parseStep_comma_single hok
                      (by revert hr; cases st.nextRanged <;> simp) hv, rfl,
                      by simp, by simp⟩
                · exact ⟨_, parseStep_dash_ok hok hv, rfl,
                    by simp, fun _ => add_elems_ne_nil _ _⟩
              have hclean : ((st.port.any fun c => !(pyDecimalVal c).isSome)
                  || decide (st.port.length > 4300)) = false := by
                rw [← pyInt_isNone, hv]; rfl
              obtain ⟨hany, hlim⟩ := Bool.or_eq_false_iff.mp hclean
              rw [hstep]
              simp only [some_bind_bind]
              rw [ih st1 hinv1, hport1]
              simp only [List.length_nil, List.any_nil, hlen0, hany, hlim,
                Bool.false_or]
        · rw [if_neg hsep]
          obtain ⟨h1, h2⟩ := not_or.mp hsep
          rw [parseStep_other hnc h1 h2]
          simp only [some_bind_bind]
          exact ih st ⟨hall, hrange⟩

theorem parseRaises_poisoned :
    ∀ (cs : List Char) (bufLen : Nat), bufLen ≠ 0 →
      parseRaises bufLen true cs = true := by
  intro cs
  induction cs with
  | nil =>
    intro bufLen h
    rw [parseRaises_nil]
    simp [h]
  | cons c cs ih =>
    intro bufLen h
    rw [parseRaises_cons]
    by_cases hval : (pyDecimalVal c).isSome = true
    · rw [if_pos hval]; exact ih _ (by omega)
    · rw [if_neg hval]
      by_cases hoth : pyOtherNumeric c = true
      · rw [if_pos hoth]; exact ih _ (by omega)
      · rw [if_neg hoth]
        by_cases hsep : c = ',' ∨ c = '-'
        · rw [if_pos hsep]; simp
        · rw [if_neg hsep]; exact ih _ h

set_option maxRecDepth 40000 in
theorem decimal_tables_disjoint :
    ∀ s ∈ decimalRunStarts, ∀ r ∈ otherNumericRanges,
      r.2 < s ∨ s + 9 < r.1 := by decide

theorem findSome?_some_mem {f : Nat → Option Nat} :
    ∀ {l : List Nat} {b : Nat}, l.findSome? f = some b → ∃ a ∈ l, f a = some b := by
  intro l
  induction l with
  | nil => intro b h; simp [List.findSome?] at h
  | cons x xs ih =>
    intro b h
    simp only [List.findSome?] at h
    rcases hf : f x with _ | y <;> rw [hf] at h
    · obtain ⟨a, ha, hfa⟩ := ih h
      exact ⟨a, by simp [ha], hfa⟩
    · have hb : y = b := by simpa using h
      exact ⟨x, by simp, by rw [hf, hb]⟩

theorem decimal_not_other {c : Char} (h : (pyDecimalVal c).isSome = true) :
    pyOtherNumeric c = false := by
  obtain ⟨v, hv⟩ := Option.isSome_iff_exists.mp h
  unfold pyDecimalVal at hv
  obtain ⟨s, hs, hf⟩ := findSome?_some_mem hv
  have hin : s ≤ c.toNat ∧ c.toNat < s + 10 := by
    by_contra hcon
    rw [if_neg hcon] at hf
    exact Option.noConfusion hf
  rw [pyOtherNumeric, List.any_eq_false]
  intro r hr
  have := decimal_tables_disjoint s hs r hr
  simp only [decide_eq_true_eq, not_and, not_le]
  omega

theorem hasSeparatorOnEmpty_cons (h : Bool) (c : Char) (cs : List Char) :
    hasSeparatorOnEmpty h (c :: cs) =
      if pyIsNumericChar c then hasSeparatorOnEmpty true cs
      else if c = ',' ∨ c = '-' then !h || hasSeparatorOnEmpty false cs
      else hasSeparatorOnEmpty h cs := rfl

theorem parseRaises_clean :
    ∀ (cs : List Char) (bufLen : Nat), bufLen + cs.length ≤ 4300 →
      parseRaises bufLen false cs
        = (hasSeparatorOnEmpty (!decide (bufLen = 0)) cs
            || cs.any pyOtherNumeric) := by
  intro cs
  induction cs with
  | nil =>
    intro bufLen h
    rw [parseRaises_nil]
    have hlim : decide (bufLen > 4300) = false := by simp; omega
    simp [hasSeparatorOnEmpty, hlim]
  | cons c cs ih =>
    intro bufLen h
    have hlen : bufLen + cs.length + 1 ≤ 4300 := by
      simp only [List.length_cons] at h
      omega
    rw [parseRaises_cons, hasSeparatorOnEmpty_cons]
    by_cases hval : (pyDecimalVal c).isSome = true
    · have hnc : pyIsNumericChar c = true := by simp [pyIsNumericChar, hval]
      rw [if_pos hval, if_pos hnc, ih (bufLen + 1) (by omega)]
      simp [List.any_cons, decimal_not_other hval]
    · by_cases hoth : pyOtherNumeric c = true
      · have hnc : pyIsNumericChar c = true := by simp [pyIsNumericChar, hoth]
        rw [if_neg hval, if_pos hoth, if_pos hnc,
          parseRaises_poisoned cs (bufLen + 1) (by omega)]
        simp [List.any_cons, hoth]
      · have hnc : pyIsNumericChar c = false := by
          simp [pyIsNumericChar, hval, hoth]
        have hoth' : pyOtherNumeric c = false := by
          revert hoth; cases pyOtherNumeric c <;> simp
        rw [if_neg hval, if_neg hoth,
          if_neg (show ¬(pyIsNumericChar c = true) by simp [hnc])]
        by_cases hsep : c = ',' ∨ c = '-'
        · rw [if_pos hsep, if_pos hsep, ih 0 (by omega)]
          have hlim : decide (bufLen > 4300) = false := by simp; omega
          have h00 : (!decide ((0 : Nat) = 0)) = false := rfl
          rw [h00, Bool.not_not, Bool.or_false, hlim, Bool.or_false,
            List.any_cons, hoth', Bool.false_or, Bool.or_assoc]
        · rw [if_neg hsep, if_neg hsep, ih bufLen (by omega)]
          simp [List.any_cons, hoth']

/-! ### Structure of the thread batches -/

theorem batchLoop_flatten (totalLen b : Nat) :
    ∀ (l threads : List ℕ) (acc : List (List ℕ)),
      (batchLoop totalLen b l threads acc).flatten = acc.flatten ++ threads ++ l := by
  intro l
  induction l with
  | nil => intro threads acc; simp [batchLoop]
  | cons p ps ih =>
    intro threads acc
    unfold batchLoop
    split
    · rw [ih]
      simp
    · rw [ih]
      simp

theorem batchLoop_no_flush {totalLen b : Nat} (hb : ¬(b ≠ 0 ∧ totalLen > b)) :
    ∀ (l threads : List ℕ) (acc : List (List ℕ)),
      batchLoop totalLen b l threads acc = acc ++ [threads ++ l] := by
  intro l
  induction l with
  | nil => intro threads acc; simp [batchLoop]
  | cons p ps ih =>
    intro threads acc
    unfold batchLoop
    rw [if_neg (by tauto)]
    rw [ih]
    simp

theorem batchLoop_flush {totalLen b : Nat} (hb : b ≠ 0) (hT : totalLen > b) :
    ∀ (l threads : List ℕ) (acc : List (List ℕ)),
      batchLoop totalLen b l threads acc = acc ++ seqChunks b threads l := by
  intro l
  induction l with
  | nil => intro threads acc; simp [batchLoop, seqChunks]
  | cons p ps ih =>
    intro threads acc
    unfold batchLoop seqChunks
    by_cases hlen : threads.length = b
    · rw [if_pos ⟨hb, hT, hlen⟩, if_pos hlen, ih]
      simp
    · rw [if_neg (by tauto), if_neg hlen, ih]

theorem chunksOfAux_of_le {b : Nat} {l : List ℕ} (h : l.length ≤ b) :
    ∀ f, chunksOfAux b f l = [l] := by
  intro f
  cases f with
  | zero => rfl
  | succ f => simp [chunksOfAux, h]

theorem chunksOfAux_fuel {b : Nat} (hb : 0 < b) :
    ∀ (f : Nat) (l : List ℕ) (g : Nat), l.length ≤ f → l.length ≤ g →
      chunksOfAux b f l = chunksOfAux b g l := by
  intro f
  induction f with
  | zero =>
    intro l g hf _
    have : l = [] := List.length_eq_zero.mp (by omega)
    subst this
    rw [chunksOfAux_of_le (by simp), chunksOfAux_of_le (by simp)]
  | succ f ih =>
    intro l g hf hg
    by_cases hl : l.length ≤ b
    · rw [chunksOfAux_of_le hl, chunksOfAux_of_le hl]
    · cases g with
      | zero => omega
      | succ g =>
        unfold chunksOfAux
        rw [if_neg hl, if_neg hl]
        have hdrop : (l.drop b).length = l.length - b := by simp
        rw [ih (l.drop b) g (by omega) (by omega)]

theorem chunksOf_of_le {b : Nat} {l : List ℕ} (h : l.length ≤ b) :
    chunksOf b l = [l] := chunksOfAux_of_le h _

theorem chunksOfAux_succ_of_gt {b f : Nat} {l : List ℕ} (h : ¬ l.length ≤ b) :
    chunksOfAux b (f + 1) l = l.take b :: chunksOfAux b f (l.drop b) := by
  simp [chunksOfAux, h]

theorem chunksOf_long {b : Nat} (hb : 0 < b) {l : List ℕ} (h : b < l.length) :
    chunksOf b l = l.take b :: chunksOf b (l.drop b) := by
  unfold chunksOf
  rcases hL : l.length with _ | f
  · omega
  · rw [chunksOfAux_succ_of_gt (by omega)]
    congr 1
    have hd : (l.drop b).length ≤ f := by
      simp only [List.length_drop, hL]
      omega
    exact chunksOfAux_fuel hb f (l.drop b) (l.drop b).length hd (le_refl _)

theorem seqChunks_eq_chunksOf {b : Nat} (hb : 0 < b) :
    ∀ (l threads : List ℕ), threads.length ≤ b →
      seqChunks b threads l = chunksOf b (threads ++ l) := by
  intro l
  induction l with
  | nil =>
    intro threads hlen
    rw [List.append_nil, chunksOf_of_le hlen]
    rfl
  | cons p ps ih =>
    intro threads hlen
    unfold seqChunks
    by_cases hl : threads.length = b
    · rw [if_pos hl, ih [p] (by simpa using hb), List.singleton_append,
        @chunksOf_long b hb (threads ++ p :: ps)
          (by simp only [List.length_append, List.length_cons, hl]; omega)]
      rw [show (threads ++ p :: ps).take b = threads from by
            rw [← hl]; exact List.take_left threads (p :: ps),
          show (threads ++ p :: ps).drop b = p :: ps from by
            rw [← hl]; exact List.drop_left threads (p :: ps)]
    · rw [if_neg hl, ih (threads ++ [p])
        (by simp only [List.length_append, List.length_cons, List.length_nil]; omega)]
      simp

theorem scanBatches_single {used : List ℕ} {totalLen b : Nat}
    (h : ¬(b ≠ 0 ∧ totalLen > b)) : scanBatches used totalLen b = [used] := by
  unfold scanBatches
  rw [batchLoop_no_flush h]
  simp

theorem scanBatches_chunks {used : List ℕ} {totalLen b : Nat} (hb : 0 < b)
    (hlen : used.length ≤ totalLen) :
    scanBatches used totalLen b = chunksOf b used := by
  by_cases hT : totalLen > b
  · unfold scanBatches
    rw [batchLoop_flush (by omega) hT, seqChunks_eq_chunksOf hb used [] (by simp)]
    simp
  · rw [scanBatches_single (by tauto), chunksOf_of_le (by omega)]

theorem scanBatches_flatten (used : List ℕ) (totalLen b : Nat) :
    (scanBatches used totalLen b).flatten = used := by
  unfold scanBatches
  rw [batchLoop_flatten]
  simp

theorem batchLoop_bounded {totalLen b : Nat} (hb : b ≠ 0) (hT : totalLen > b) :
    ∀ (l threads : List ℕ) (acc : List (List ℕ)),
      threads.length ≤ b → (∀ x ∈ acc, x.length ≤ b) →
      ∀ x ∈ batchLoop totalLen b l threads acc, x.length ≤ b := by
  intro l
  induction l with
  | nil =>
    intro threads acc hthr hacc x hx
    simp only [batchLoop, List.mem_append, List.mem_singleton] at hx
    rcases hx with hx | rfl
    · exact hacc x hx
    · exact hthr
  | cons p ps ih =>
    intro threads acc hthr hacc x hx
    unfold batchLoop at hx
    by_cases hlen : threads.length = b
    · rw [if_pos ⟨hb, hT, hlen⟩] at hx
      refine ih [p] (acc ++ [threads])
        (by simp only [List.length_cons, List.length_nil]; omega) ?_ x hx
      intro y hy
      simp only [List.mem_append, List.mem_singleton] at hy
      rcases hy with hy | rfl
      · exact hacc y hy
      · exact hthr
    · rw [if_neg (by tauto)] at hx
      exact ih (threads ++ [p]) acc
        (by simp only [List.length_append, List.length_cons, List.length_nil]; omega) hacc x hx

theorem mem_scanBatches_length_le {used : List ℕ} {totalLen b : Nat} (hb : 0 < b)
    (hlen : used.length ≤ totalLen) :
    ∀ x ∈ scanBatches used totalLen b, x.length ≤ b := by
  by_cases hT : totalLen > b
  · exact batchLoop_bounded (by omega) hT used [] [] (by simp) (by simp)
  · intro x hx
    rw [scanBatches_single (by tauto)] at hx
    obtain rfl : x = used := by simpa using hx
    omega

theorem mem_scanBatches_length_le_used {used : List ℕ} {totalLen b : Nat} :
    ∀ x ∈ scanBatches used totalLen b, x.length ≤ used.length := by
  intro x hx
  have hjoin := scanBatches_flatten used totalLen b
  have hle : x.length ≤ (scanBatches used totalLen b).flatten.length := by
    rw [List.length_flatten]
    exact List.single_le_sum (by simp) _ (List.mem_map_of_mem _ hx)
  rwa [hjoin] at hle

/-! ### Sorted-list facts used by the range validation -/

theorem sortList_sorted (l : List ℕ) : (sortList l).Sorted (· ≤ ·) :=
  List.sorted_insertionSort (· ≤ ·) l

theorem mem_sortList {y : ℕ} {l : List ℕ} : y ∈ sortList l ↔ y ∈ l :=
  (List.perm_insertionSort (· ≤ ·) l).mem_iff

theorem sorted_head_le {l : List ℕ} (hs : l.Sorted (· ≤ ·)) {x : ℕ}
    (hx : l.head? = some x) : ∀ y ∈ l, x ≤ y := by
  cases l with
  | nil => simp at hx
  | cons a t =>
    obtain rfl : a = x := by simpa using hx
    intro y hy
    rcases List.mem_cons.mp hy with rfl | hy
    · exact le_refl y
    · exact List.rel_of_sorted_cons hs y hy

theorem sorted_le_getLast :
    ∀ {l : List ℕ}, l.Sorted (· ≤ ·) → ∀ {x : ℕ}, l.getLast? = some x →
      ∀ y ∈ l, y ≤ x := by
  intro l
  induction l with
  | nil => intro _ x hx; simp at hx
  | cons a t ih =>
    intro hs x hx y hy
    cases t with
    | nil =>
      obtain rfl : a = x := by simpa using hx
      obtain rfl : y = a := by simpa using hy
      exact le_refl y
    | cons b t' =>
      have hx' : (b :: t').getLast? = some x := by
        rw [← List.getLast?_cons_cons]
        exact hx
      have htail := ih hs.of_cons hx'
      rcases List.mem_cons.mp hy with rfl | hy
      · exact le_trans (List.rel_of_sorted_cons hs b (by simp)) (htail b (by simp))
      · exact htail y hy

theorem mem_totalPorts {d : Bool} {I : List ℕ} {p : ℕ} :
    p ∈ totalPorts d I ↔ p ∈ (if d then DEFAULT_PORTS ++ I else I) := by
  cases d <;> simp [totalPorts, mem_sortList]

theorem mem_usedPorts {d : Bool} {I E : List ℕ} {p : ℕ} :
    p ∈ usedPorts d I E ↔ p ∈ (if d then DEFAULT_PORTS ++ I else I) ∧ p ∉ E := by
  rw [usedPorts, List.mem_filter, mem_totalPorts]
  simp

theorem usedPorts_sorted (d : Bool) (I E : List ℕ) :
    (usedPorts d I E).Sorted (· ≤ ·) :=
  List.Pairwise.filter _ (sortList_sorted _)

theorem usedPorts_length_le (d : Bool) (I E : List ℕ) :
    (usedPorts d I E).length ≤ (totalPorts d I).length :=
  List.length_filter_le _ _

/-! ### The head/tail form of the range validation -/

theorem validatePorts_included_empty (le : List ℕ) :
    validatePorts [] le = ValidationResult.indexError := rfl

theorem validatePorts_excluded_empty {li : List ℕ} {i0 iN : ℕ}
    (hI : li.head? = some i0) (hiN : li.getLast? = some iN) :
    validatePorts li [] =
      if i0 ≤ 0 then ValidationResult.rangeExit
      else if 65535 < iN then ValidationResult.rangeExit
      else ValidationResult.indexError := by
  unfold validatePorts
  rw [hI, hiN]
  rfl

theorem validatePorts_eq_of_some {li le : List ℕ} {i0 iN e0 eN : ℕ}
    (hI : li.head? = some i0) (hiN : li.getLast? = some iN)
    (hE : le.head? = some e0) (heN : le.getLast? = some eN) :
    validatePorts li le =
      if i0 ≤ 0 then ValidationResult.rangeExit
      else if 65535 < iN then ValidationResult.rangeExit
      else if e0 ≤ 0 then ValidationResult.rangeExit
      else if 65535 < eN then ValidationResult.rangeExit
      else ValidationResult.ok := by
  unfold validatePorts
  rw [hI, hiN, hE, heN]

theorem validatePorts_ok_iff {li le : List ℕ} (hi : li.Sorted (· ≤ ·))
    (he : le.Sorted (· ≤ ·)) :
    validatePorts li le = ValidationResult.ok ↔
      (li ≠ [] ∧ le ≠ [] ∧ (∀ p ∈ li, 0 < p ∧ p ≤ 65535) ∧
        (∀ p ∈ le, 0 < p ∧ p ≤ 65535)) := by
  rcases hI : li.head? with _ | i0
  · have hnil : li = [] := List.head?_eq_none_iff.mp hI
    subst hnil
    simp [validatePorts_included_empty]
  · have hne : li ≠ [] := by
      intro h; subst h; simp at hI
    obtain ⟨iN, hiN⟩ : ∃ iN, li.getLast? = some iN := by
      rcases h : li.getLast? with _ | iN
      · exact absurd (List.getLast?_eq_none_iff.mp h) hne
      · exact ⟨iN, rfl⟩
    rcases hE : le.head? with _ | e0
    · have hnil : le = [] := List.head?_eq_none_iff.mp hE
      subst hnil
      rw [validatePorts_excluded_empty hI hiN]
      constructor
      · intro h
        split_ifs at h
      · intro h
        exact absurd rfl h.2.1
    · have hne' : le ≠ [] := by
        intro h; subst h; simp at hE
      obtain ⟨eN, heN⟩ : ∃ eN, le.getLast? = some eN := by
        rcases h : le.getLast? with _ | eN
        · exact absurd (List.getLast?_eq_none_iff.mp h) hne'
        · exact ⟨eN, rfl⟩
      rw [validatePorts_eq_of_some hI hiN hE heN]
      have hi0mem : i0 ∈ li := by
        cases li with
        | nil => simp at hI
        | cons a t => simp_all
      have hiNmem : iN ∈ li := List.mem_of_mem_getLast? hiN
      have he0mem : e0 ∈ le := by
        cases le with
        | nil => simp at hE
        | cons a t => simp_all
      have heNmem : eN ∈ le := List.mem_of_mem_getLast? heN
      constructor
      · intro h
        split_ifs at h with h1 h2 h3 h4
        refine ⟨hne, hne', fun p hp => ?_, fun p hp => ?_⟩
        · have hlow := sorted_head_le hi hI p hp
          have hhigh := sorted_le_getLast hi hiN p hp
          omega
        · have hlow := sorted_head_le he hE p hp
          have hhigh := sorted_le_getLast he heN p hp
          omega
      · rintro ⟨-, -, hli, hle⟩
        have h1 := hli i0 hi0mem
        have h2 := hli iN hiNmem
        have h3 := hle e0 he0mem
        have h4 := hle eN heNmem
        rw [if_neg (by omega), if_neg (by omega), if_neg (by omega), if_neg (by omega)]

/-! ### Gluing the parser spec to `parse_ports` -/

theorem parse_ports_eq_none_iff (s : String) :
    parse_ports s = none ↔ parseRaises 0 false s.data = true := by
  unfold parse_ports
  have h := parse_loop_spec s.data ⟨PySet.empty, [], false⟩ ⟨rfl, by simp⟩
  simpa using h

theorem sortList_eq_nil_iff {l : List ℕ} : sortList l = [] ↔ l = [] := by
  constructor
  · intro h
    have hp := List.perm_insertionSort (· ≤ ·) l
    rw [show l.insertionSort (· ≤ ·) = sortList l from rfl, h] at hp
    exact hp.symm.eq_nil
  · intro h
    subst h
    rfl

/-! ### The claims -/

/-- Claim C1: for every resolved port set `R` and concurrency budget
`b > 0`, every `start_threads` cohort — the set of probes that can be
simultaneously in flight, since a cohort is fully started and then fully
joined before the next begins — has size at most `min b |R|`; for
`b = 0` the whole resolved set forms one cohort, so the only ceiling is
`|R|` itself. -/
theorem concurrency_budget_ceiling (d : Bool) (I E : List ℕ) (b : ℕ)
    (l : List ℕ)
    (hl : l ∈ scanBatches (usedPorts d I E) (totalPorts d I).length b) :
    l.length ≤ if b = 0 then (usedPorts d I E).length
               else min b (usedPorts d I E).length := by
  by_cases hb : b = 0
  · subst hb
    rw [scanBatches_single (by simp)] at hl
    obtain rfl : l = usedPorts d I E := by simpa using hl
    simp
  · rw [if_neg hb]
    exact le_min
      (mem_scanBatches_length_le (by omega) (usedPorts_length_le d I E) l hl)
      (mem_scanBatches_length_le_used l hl)

theorem concurrency_budget_ceiling_witness :
    ([80] : List ℕ).length ≤
      if (1 : ℕ) = 0 then (usedPorts false [80, 443] []).length
      else min 1 (usedPorts false [80, 443] []).length :=
  concurrency_budget_ceiling false [80, 443] [] 1 [80] (by decide)

/-- Claim C2 (code bug): the scan does launch exactly one probe per port
of `R` (with `default=false`, `include="80,443"`, `exclude="443"` the
single cohort is `[80]`), but the final `Finished checking N port(s)`
line reports `len(total_ports) = 2`, the size of the pre-exclusion
positive set, not `|R| = 1`. -/
theorem summary_count_mismatch :
    port_scanner 10 false (some "80,443") (some "443") true
      = Outcome.handled "Exiting program." [[80]] 2
    ∧ (usedPorts false [80, 443] [443]).length = 1 := by decide

/-- Claim C3: the scanned list is exactly the positive set (defaults
united with the include set when `default` is on) minus the exclude set;
in particular it is disjoint from the exclude set. -/
theorem resolved_set_difference (d : Bool) (i e : String) (I E : List ℕ)
    (hi : (parse_ports i).map PySet.elems = some I)
    (he : (parse_ports e).map PySet.elems = some E) :
    (usedPorts d I E).toFinset
        = (if d then DEFAULT_PORTS.toFinset ∪ I.toFinset else I.toFinset)
            \ E.toFinset
    ∧ Disjoint (usedPorts d I E).toFinset E.toFinset := by
  constructor
  · ext p
    rw [List.mem_toFinset, mem_usedPorts, Finset.mem_sdiff]
    cases d <;> simp
  · rw [Finset.disjoint_left]
    intro p hp
    rw [List.mem_toFinset, mem_usedPorts] at hp
    rw [List.mem_toFinset]
    exact hp.2

theorem resolved_set_difference_witness :
    ((usedPorts false [80, 443] [443]).toFinset
        = (if false then DEFAULT_PORTS.toFinset ∪ ([80, 443] : List ℕ).toFinset
           else ([80, 443] : List ℕ).toFinset) \ ([443] : List ℕ).toFinset)
    ∧ Disjoint (usedPorts false [80, 443] [443]).toFinset
        ([443] : List ℕ).toFinset :=
  resolved_set_difference false "80,443" "443" [80, 443] [443]
    (by decide) (by decide)

/-- Claim C4 (code bug): a dash range is filled starting from
`list(port_list)[-1] + 1` — the successor of the *last element in
CPython set-iteration order*, not of the range's left bound.  For the
spec's own example `"5,10-12,20"` the set `{5, 10}` iterates as
`[10, 5]` (slots `10 & 7 = 2` and `5 & 7 = 5`), so the range runs from
`6` to `12` and the result is `{5,...,12, 20}`, not `{5, 10, 11, 12, 20}`.
A lone range such as `"10-15"` behaves as documented. -/
theorem range_token_start_bug :
    (parse_ports "5,10-12,20").map PySet.toFinset
        = some {5, 6, 7, 8, 9, 10, 11, 12, 20}
    ∧ (parse_ports "10-15").map PySet.toFinset = some {10, 11, 12, 13, 14, 15}
    ∧ ({5, 6, 7, 8, 9, 10, 11, 12, 20} : Finset ℕ) ≠ {5, 10, 11, 12, 20} := by
  decide

/-- Claim C5 counterexample: malformed strings the spec says must raise
a `ParseError` are tolerated: a trailing dash (`"5-"` gives `{5}`), a
reversed range (`"12-10"` gives `{12}`), non-numeric characters and
whitespace (silently skipped: `"a b"` gives `∅`, `" 80"` gives
`{80}`). -/
theorem malformed_inputs_tolerated :
    (parse_ports "5-").map PySet.toFinset = some {5}
    ∧ (parse_ports "12-10").map PySet.toFinset = some {12}
    ∧ (parse_ports "a b").map PySet.toFinset = some ∅
    ∧ (parse_ports " 80").map PySet.toFinset = some {80} := by decide

/-- Claim C5 (amended): parsing fails exactly when a comma or dash is
reached while the numeric buffer is empty (an empty token, as in `",5"`,
`"5,,6"` or `"5--7"`: the `assert port.isnumeric()` raises
`AssertionError`), or when a flushed buffer makes `int()` raise
`ValueError` — it holds a numeric character that is not a decimal digit
(such as '\u00bd' or '\u00b2'), or exceeds CPython's 4300-digit
string-to-int limit.  For raw strings of at most 4300 characters this
simplifies to: parsing fails iff there is an empty token before a
separator, or a numeric non-decimal character anywhere.  Everything
else is tolerated: whitespace and non-numeric characters are skipped,
non-ASCII decimal digits such as '\u0665' are accepted with their
decimal values, a reversed range contributes only its left bound, and a
trailing dash is ignored. -/
theorem parse_failure_characterization (s : String) :
    (parse_ports s = none ↔ parseRaises 0 false s.data = true)
    ∧ (s.data.length ≤ 4300 →
        (parse_ports s = none ↔
          (hasSeparatorOnEmpty false s.data = true
            ∨ s.data.any pyOtherNumeric = true)))
    ∧ (parse_ports "\u0665").map PySet.toFinset = some {5} := by
  refine ⟨parse_ports_eq_none_iff s, fun hlen => ?_, by decide⟩
  rw [parse_ports_eq_none_iff s, parseRaises_clean s.data 0 (by omega)]
  simp

/-- Claim C6 counterexample: port `0` lies in the claimed valid range
`[0, 65535]`, yet `sorted_included[0] <= 0` rejects it: the run exits at
the range check. -/
theorem port_zero_rejected :
    port_scanner 10 true (some "0") (some "80") true
      = Outcome.earlyExit rangeMsg := by decide

/-- Claim C6 (amended): the line-147 validation succeeds exactly when
both the include set and the exclude set are nonempty and all their
ports lie in `[1, 65535]`: port `0` is rejected as out of range, and an
empty include or exclude set instead raises an uncaught `IndexError`.
Out-of-range ports still stop the run before any probe is created. -/
theorem validation_range_characterization (I E : List ℕ) :
    validatePorts (sortList I) (sortList E) = ValidationResult.ok ↔
      (I ≠ [] ∧ E ≠ [] ∧ (∀ p ∈ I, 0 < p ∧ p ≤ 65535)
        ∧ (∀ p ∈ E, 0 < p ∧ p ≤ 65535)) := by
  rw [validatePorts_ok_iff (sortList_sorted I) (sortList_sorted E)]
  simp only [ne_eq, sortList_eq_nil_iff]
  constructor
  · rintro ⟨h1, h2, h3, h4⟩
    exact ⟨h1, h2, fun p hp => h3 p (mem_sortList.mpr hp),
      fun p hp => h4 p (mem_sortList.mpr hp)⟩
  · rintro ⟨h1, h2, h3, h4⟩
    exact ⟨h1, h2, fun p hp => h3 p (mem_sortList.mp hp),
      fun p hp => h4 p (mem_sortList.mp hp)⟩

/-- Claim C7 (code bug): the empty raw string itself parses to the empty
set without error, but a run whose include (or exclude) string is empty
— including every run that relies only on the default ports — crashes
with an uncaught `IndexError` at `sorted_included[0]`; and when the
resolved set `R` is empty with validation passing (`include="80"`,
`exclude="80"`), the run performs zero probes yet reports
`len(total_ports) = 1`, not zero. -/
theorem empty_portset_run_crashes :
    (parse_ports "").map PySet.elems = some []
    ∧ port_scanner 10 false none none true = Outcome.uncaught PyExc.indexError
    ∧ port_scanner 10 false (some "80") (some "80") true
        = Outcome.handled "Exiting program." [[]] 1 := by decide

/-- Claim C8 (code bug): configuration errors do not exit nonzero.  Both
the negative `max_threads` check and the port-range check print their
message and call a bare `sys.exit()`, i.e. `SystemExit(None)`, which
terminates the process with status 0. -/
theorem config_error_exits_zero :
    (port_scanner (-1) true (some "80") none true = Outcome.earlyExit threadMsg
      ∧ exitCode (port_scanner (-1) true (some "80") none true) = 0)
    ∧ (port_scanner 10 true (some "70000") (some "80") true
          = Outcome.earlyExit rangeMsg
      ∧ exitCode (port_scanner 10 true (some "70000") (some "80") true) = 0) := by
  decide

/-- Claim C9: if the budget is 0 or at least `|R|` the whole resolved
set is one cohort (full parallelism); for any positive budget the
cohorts are exactly the in-order chunks of size `b` of the
ascending-sorted resolved list (last chunk possibly smaller), executed
sequentially — each cohort is fully joined before the next is started,
so batches never overlap. -/
theorem batch_schedule_structure (d : Bool) (I E : List ℕ) (b : ℕ) :
    ((b = 0 ∨ (usedPorts d I E).length ≤ b) →
        scanBatches (usedPorts d I E) (totalPorts d I).length b
          = [usedPorts d I E])
    ∧ (0 < b →
        scanBatches (usedPorts d I E) (totalPorts d I).length b
          = chunksOf b (usedPorts d I E))
    ∧ (usedPorts d I E).Sorted (· ≤ ·) := by
  refine ⟨?_, ?_, usedPorts_sorted d I E⟩
  · intro h
    by_cases hb : b = 0
    · subst hb
      exact scanBatches_single (by simp)
    · have hle : (usedPorts d I E).length ≤ b := by
        rcases h with h | h
        · exact absurd h hb
        · exact h
      rw [scanBatches_chunks (by omega) (usedPorts_length_le d I E),
        chunksOf_of_le hle]
  · intro hb
    exact scanBatches_chunks hb (usedPorts_length_le d I E)

theorem batch_schedule_structure_witness :
    scanBatches (usedPorts false [1, 2, 3, 4, 5] [])
        (totalPorts false [1, 2, 3, 4, 5]).length 2
      = chunksOf 2 (usedPorts false [1, 2, 3, 4, 5] []) :=
  (batch_schedule_structure false [1, 2, 3, 4, 5] [] 2).2.1 (by decide)

/-- Claim C10: `socket.gethostbyname` runs at line 138, before the
`with SocketHandler(...)` block is entered at line 160, so when the
hostname does not resolve the `socket.gaierror` escapes `port_scanner`
uncaught; the `SocketHandler.__exit__` branch that would print
`[!] Hostname could not be resolved.` is unreachable from the
resolution step. -/
theorem resolution_error_unhandled (mt : Int) (hmt : ¬ mt < 0) (d : Bool)
    (i e : Option String) :
    port_scanner mt d i e false = Outcome.uncaught PyExc.gaierror
    ∧ socketHandlerMessage PyExc.gaierror = "[!] Hostname could not be resolved."
    ∧ ∀ bs n, port_scanner mt d i e false
        ≠ Outcome.handled (socketHandlerMessage PyExc.gaierror) bs n := by
  have h : port_scanner mt d i e false = Outcome.uncaught PyExc.gaierror := by
    unfold port_scanner
    rw [if_neg hmt, if_pos rfl]
  refine ⟨h, rfl, fun bs n hcontr => ?_⟩
  rw [h] at hcontr
  exact Outcome.noConfusion hcontr

theorem resolution_error_unhandled_witness :
    port_scanner 10 true none none false = Outcome.uncaught PyExc.gaierror :=
  (resolution_error_unhandled 10 (by decide) true none none).1

theorem parse_failure_characterization_witness :
    parse_ports ",5" = none ∧ parse_ports "\u00bd" = none :=
  ⟨((parse_failure_characterization ",5").2.1 (by decide)).mpr
      (Or.inl (by decide)),
    ((parse_failure_characterization "\u00bd").2.1 (by decide)).mpr
      (Or.inr (by decide))⟩

theorem validation_range_characterization_witness :
    validatePorts (sortList [80]) (sortList [443]) = ValidationResult.ok :=
  (validation_range_characterization [80] [443]).mpr (by decide)
